import Mathlib

/-!
Verification of the vocabulary-dataset build scripts.

The repository is four Python command-line scripts operating on JSON files of
vocabulary entries:

* convert_csv_to_json.py : csv_to_json (CSV rows to entries) and
  merge_json_files (merge several entry files, dedup by word).
* add_translations.py : translate_vocabulary_file (add a per-language
  meanings mapping to each entry, via an external translator).
* download_vocabulary.py : download_and_convert (fetch a CSV per level and
  convert it, writing one file per level).
* update_first_words.py : patching meanings into a target dataset from a
  sample dataset (multilingual_map and the update loop).

The embedding below is shallow: Python dicts holding string keys become
association lists (insertion order preserved, assignment replaces in place),
missing JSON keys become Option, an exception raised by external calls or by
a missing key becomes an Option / Except value, and the final file write is
modelled as the returned value (a run that raises before the write returns
an error and the previous file state is kept by the caller model).
-/

/-- A vocabulary entry as persisted in the JSON files: the three string
fields, and the optional meanings object (a JSON object, modelled as an
association list from language code to gloss; `none` means the entry has no
meanings key, `some d` means the key is present and holds the dict `d`). -/
structure Entry where
  word : String
  reading : String
  meaning : String
  meanings : Option (List (String × String))
deriving DecidableEq, Repr

/-- Python dict assignment `d[k] = v` on an insertion-ordered dict: if the
key is present its value is replaced in place, otherwise the pair is
appended at the end. -/
def dictInsert {α : Type} (d : List (String × α)) (k : String) (v : α) :
    List (String × α) :=
  if d.any (fun p => p.1 == k) then
    d.map (fun p => if p.1 == k then (k, v) else p)
  else
    d ++ [(k, v)]

/-- Python str.strip(): remove leading and trailing whitespace. Written by
structural recursion over the string's characters so that concrete inputs
evaluate inside proofs. -/
def pyStrip (s : String) : String :=
  ⟨((s.data.dropWhile Char.isWhitespace).reverse.dropWhile Char.isWhitespace).reverse⟩

/-! ## Converter: csv_to_json (convert_csv_to_json.py) -/

/-- One data row of the input CSV, as produced by csv.DictReader: the value
of each of the three columns (a cell that is absent or empty is the empty
string, which is exactly what the script's falsiness test distinguishes). -/
structure CsvRow where
  word : String
  reading : String
  meaning : String
deriving DecidableEq, Repr

/-- The columns csv_to_json requires of the input CSV. -/
def requiredColumns : List String := ["word", "reading", "meaning"]

/-- The row-skipping test of csv_to_json: a row is kept unless one of the
three fields is falsy (the empty string). The test is on the raw field
values; no trimming happens before it. -/
def keepRow (r : CsvRow) : Bool :=
  !(r.word == "" || r.reading == "" || r.meaning == "")

/-- A retained CSV row becomes an entry with the three fields
whitespace-trimmed (str.strip) and no meanings key. -/
def rowToEntry (r : CsvRow) : Entry :=
  { word := pyStrip r.word, reading := pyStrip r.reading, meaning := pyStrip r.meaning,
    meanings := none }

/-- csv_to_json on a parsed CSV (header fieldnames plus data rows): `none`
when a required column is missing (the function prints an error and returns
False before opening the output file), otherwise the list of entries that
is written to the output file. -/
def csv_to_json (header : List String) (rows : List CsvRow) :
    Option (List Entry) :=
  if requiredColumns.all (fun c => header.contains c) then
    some ((rows.filter keepRow).map rowToEntry)
  else
    none

/-- One run of csv_to_json together with its file-system effect: `prev` is
the previous content of the destination file (`none` if it does not exist);
the result is the returned boolean and the destination file afterwards.
The output file is opened only after the column check has passed. -/
def csvToJsonRun (header : List String) (rows : List CsvRow)
    (prev : Option (List Entry)) : Bool × Option (List Entry) :=
  match csv_to_json header rows with
  | some es => (true, some es)
  | none => (false, prev)

/-! ## Converter: merge_json_files (convert_csv_to_json.py) -/

/-- An element of a parsed JSON dataset file as seen by merge_json_files.
The merge accesses only the word key, which may be missing from a malformed
entry (`word = none`); accessing it then raises KeyError inside the per-file
try block. The remaining fields ride along unchanged. -/
structure JEntry where
  word : Option String
  reading : String
  meaning : String
  meanings : Option (List (String × String))
deriving DecidableEq, Repr

/-- The per-file loop of merge_json_files: walk the file's entries, append
each whose word has not been seen, recording seen words. An entry without a
word key raises KeyError, which the per-file except catches: the rest of
the file is dropped but everything accumulated so far (entries and seen
words) is kept. -/
def mergeFile : List JEntry → List JEntry → List String →
    List JEntry × List String
  | [], acc, seen => (acc, seen)
  | e :: es, acc, seen =>
    match e.word with
    | none => (acc, seen)
    | some w =>
      if seen.contains w then mergeFile es acc seen
      else mergeFile es (acc ++ [e]) (seen ++ [w])

/-- merge_json_files over the list of input files: a file is either a
parse/read failure (`Except.error`, skipped with a warning) or its parsed
entries. The accumulated result is what is written to the output file. -/
def merge_json_files (files : List (Except String (List JEntry))) :
    List JEntry :=
  (files.foldl
    (fun st file =>
      match file with
      | Except.error _ => st
      | Except.ok entries => mergeFile entries st.1 st.2)
    ([], [])).1

/-- First-seen-wins deduplication by word, stated independently of the
seen-set loop: keep the head entry and drop every later entry carrying the
same word value. This is the spec's description of what merge produces. -/
def dedupFirst : List JEntry → List JEntry
  | [] => []
  | e :: es => e :: dedupFirst (es.filter (fun e2 => !(e2.word == e.word)))
termination_by l => l.length
decreasing_by
  simp only [List.length_cons]
  exact Nat.lt_succ_of_le (List.length_filter_le _ _)

/-- Helper predicate: the entry's word (when present) is not among the seen
words. -/
def notSeen (seen : List String) (e : JEntry) : Bool :=
  match e.word with
  | none => true
  | some w => !(seen.contains w)

/-! ## Translator: translate_vocabulary_file (add_translations.py) -/

/-- The fixed language table of add_translations.py, in its iteration
order. -/
def LANGUAGES : List String :=
  ["zh-cn", "ne", "vi", "my", "ko", "ar", "es", "de", "fr"]

/-- The key a translation is stored under: lang_code.split('-')[0], the part
of the code before any region qualifier (the whole code when it has no '-').
Written by structural recursion over the characters so that concrete inputs
evaluate inside proofs. -/
def baseCode (code : String) : String :=
  ⟨code.data.takeWhile (fun c => !(c == '-'))⟩

/-- The per-entry body of the translator's loop. The external translator is
the function `tr` from (English text, destination code) to `some` translated
text, or `none` when the call raises. An entry is skipped when it already
has a meanings key holding a dict, or when its meaning field is missing or
empty; otherwise a meanings dict seeded with the en key is filled in, one
language at a time, storing the translation — or, when the call fails, the
English meaning — under the base language code. -/
def translateEntry (tr : String → String → Option String) (e : Entry) :
    Entry :=
  match e.meanings with
  | some _ => e
  | none =>
    if e.meaning == "" then e
    else
      let ms := LANGUAGES.foldl
        (fun acc code =>
          dictInsert acc (baseCode code) ((tr e.meaning code).getD e.meaning))
        [("en", e.meaning)]
      { e with meanings := some ms }

/-- translate_vocabulary_file: process every entry of the dataset in order
and write the resulting dataset back out (the returned list is the file's
new content). -/
def translate_vocabulary_file (tr : String → String → Option String)
    (ds : List Entry) : List Entry :=
  ds.map (translateEntry tr)

/-! ## Patcher: update_first_words.py -/

/-- The word-to-sample-entry lookup built from the sample file:
a Python dict comprehension, so a duplicated word keeps the last entry. -/
def multilingual_map (sample : List Entry) : List (String × Entry) :=
  sample.foldl (fun m e => dictInsert m e.word e) []

/-- The patcher's update loop over the target dataset: a matched entry has
its meanings key overwritten with the sample entry's meanings value and is
counted; an unmatched entry is untouched. A matched sample entry without a
meanings key raises KeyError, aborting the run before the final write
(`Except.error`). On normal completion the result is the rewritten dataset
and the updated count. -/
def patchLoop (m : List (String × Entry)) :
    List Entry → List Entry → Nat → Except String (List Entry × Nat)
  | [], out, n => Except.ok (out, n)
  | e :: es, out, n =>
    match m.lookup e.word with
    | none => patchLoop m es (out ++ [e]) n
    | some s =>
      match s.meanings with
      | none => Except.error "KeyError: meanings"
      | some ms => patchLoop m es (out ++ [{ e with meanings := some ms }]) (n + 1)

/-- update_first_words.py as a whole: build the lookup from the sample,
patch the target, and (unless the loop raised) write the full target back.
The error case models the script dying before the write, leaving the
target file unchanged. -/
def update_first_words (sample target : List Entry) :
    Except String (List Entry × Nat) :=
  patchLoop (multilingual_map sample) target [] 0

/-! ## Fetcher: download_and_convert (download_vocabulary.py) -/

/-- One data row of the remote CSV, columns expression / reading / meaning
(an absent cell is the empty string, matching the row.get default). -/
structure FetchRow where
  expression : String
  reading : String
  meaning : String
deriving DecidableEq, Repr

/-- The fetcher's row conversion: skip the row when the trimmed expression
or the trimmed meaning is empty; an empty trimmed reading falls back to the
word itself. -/
def fetchRowToEntry (r : FetchRow) : Option Entry :=
  let word := pyStrip r.expression
  if word == "" then none
  else
    let reading0 := pyStrip r.reading
    let reading := if reading0 == "" then word else reading0
    let meaning := pyStrip r.meaning
    if meaning == "" then none
    else some { word := word, reading := reading, meaning := meaning, meanings := none }

/-- Conversion of the downloaded CSV's rows to entries. -/
def convertFetched (rows : List FetchRow) : List Entry :=
  rows.filterMap fetchRowToEntry

/-- One per-level run of download_and_convert. `download` is the outcome of
the request inside the try block (`Except.error` when requests raises);
`prev` is the previous content of the level's output file. The result is
the returned word count and the file afterwards: the write happens inside
the try, after the download succeeded, so a failed download returns 0 and
leaves the file alone. -/
def download_and_convert (download : Except String (List FetchRow))
    (prev : Option (List Entry)) : Nat × Option (List Entry) :=
  match download with
  | Except.ok rows => ((convertFetched rows).length, some (convertFetched rows))
  | Except.error _ => (0, prev)

/-- The fetcher's main loop over the levels: each level is a (download
outcome, previous file content) pair; the loop accumulates the total word
count and the per-level file contents afterwards. -/
def fetchAll (levels : List (Except String (List FetchRow) × Option (List Entry))) :
    Nat × List (Option (List Entry)) :=
  levels.foldl
    (fun st lv =>
      ((st.1 + (download_and_convert lv.1 lv.2).1),
       st.2 ++ [(download_and_convert lv.1 lv.2).2]))
    (0, [])

/-! ## The entry invariant -/

/-- The data-model invariant on a single entry: either it has no meanings
key, or the meanings dict it holds contains an en key. -/
def entryInvB (e : Entry) : Bool :=
  match e.meanings with
  | none => true
  | some m => (m.lookup "en").isSome

/-! ## Concrete translators used as witnesses -/

/-- A translation capability that always succeeds, tagging the text with the
destination code. -/
def trOk : String → String → Option String :=
  fun s c => some (s ++ "-" ++ c)

/-- A translation capability that raises for Korean and succeeds for every
other destination. -/
def trKoFails : String → String → Option String :=
  fun s c => if c == "ko" then none else some (s ++ "-" ++ c)

/-! ## Theorems -/

/-- Helper: the column check of csv_to_json passes exactly when all three
required columns are present in the header. -/
theorem requiredColumns_all_iff (header : List String) :
    (requiredColumns.all (fun c => header.contains c)) = true ↔
      ("word" ∈ header ∧ "reading" ∈ header ∧ "meaning" ∈ header) := by
  simp [requiredColumns, List.elem_iff]

/-- C1, counterexample: a row whose three fields are the single space " " is
not dropped by csv_to_json (the emptiness test runs before trimming), and it
is persisted with all three fields equal to the empty string — so the claim
that a whitespace-only row is dropped, and that no persisted entry has an
empty word or reading, is false. -/
theorem c1_whitespace_row_persisted :
    csv_to_json ["word", "reading", "meaning"]
        [{ word := " ", reading := " ", meaning := " " }] =
      some [{ word := "", reading := "", meaning := "", meanings := none }] ∧
    csv_to_json ["word", "reading", "meaning"]
        [{ word := " ", reading := " ", meaning := " " }] ≠ some [] := by
  exact ⟨by decide, by decide⟩

/-- C1, amended: a row is skipped exactly when one of its three raw
(untrimmed) fields is the empty string; every retained row is persisted with
its three fields whitespace-trimmed (so a row of whitespace-only fields is
retained but persisted with empty-string fields). -/
theorem c1_skip_untrimmed_persist_trimmed (header : List String)
    (rows : List CsvRow)
    (hw : "word" ∈ header) (hr : "reading" ∈ header) (hm : "meaning" ∈ header) :
    csv_to_json header rows =
      some ((rows.filter
          (fun r => !(r.word == "" || r.reading == "" || r.meaning == ""))).map
        (fun r => { word := pyStrip r.word, reading := pyStrip r.reading,
                    meaning := pyStrip r.meaning, meanings := none })) := by
  have hall := (requiredColumns_all_iff header).mpr ⟨hw, hr, hm⟩
  simp only [csv_to_json, hall, if_true]
  rfl

/-- Witness for c1_skip_untrimmed_persist_trimmed at a concrete header and
row list. -/
theorem c1_skip_untrimmed_persist_trimmed_witness :
    csv_to_json ["word", "reading", "meaning"]
        [{ word := " 学生 ", reading := "がくせい", meaning := "student" },
         { word := "", reading := "", meaning := "" }] =
      some (([{ word := " 学生 ", reading := "がくせい", meaning := "student" },
              { word := "", reading := "", meaning := "" }].filter
          (fun r : CsvRow => !(r.word == "" || r.reading == "" || r.meaning == ""))).map
        (fun r : CsvRow => { word := pyStrip r.word, reading := pyStrip r.reading,
                             meaning := pyStrip r.meaning, meanings := none })) :=
  c1_skip_untrimmed_persist_trimmed _ _ (by decide) (by decide) (by decide)

/-- C8: when any of the three required columns is missing from the CSV
header, csv_to_json returns the failure indication and no output is
written: the destination file keeps its previous contents. -/
theorem c8_missing_column_no_output (header : List String) (rows : List CsvRow)
    (prev : Option (List Entry))
    (h : ¬ ("word" ∈ header ∧ "reading" ∈ header ∧ "meaning" ∈ header)) :
    csv_to_json header rows = none ∧
    csvToJsonRun header rows prev = (false, prev) := by
  have hall : (requiredColumns.all (fun c => header.contains c)) = false := by
    rcases hb : requiredColumns.all (fun c => header.contains c)
    · rfl
    · exact absurd ((requiredColumns_all_iff header).mp hb) h
  have hnone : csv_to_json header rows = none := by
    simp only [csv_to_json, hall]
    rfl
  exact ⟨hnone, by simp [csvToJsonRun, hnone]⟩

/-- Witness for c8_missing_column_no_output: a header lacking the meaning
column, with a previous file present. -/
theorem c8_missing_column_no_output_witness :
    csv_to_json ["word", "reading"] [{ word := "犬", reading := "いぬ", meaning := "dog" }] = none ∧
    csvToJsonRun ["word", "reading"] [{ word := "犬", reading := "いぬ", meaning := "dog" }]
        (some [{ word := "旧", reading := "きゅう", meaning := "old", meanings := none }]) =
      (false, some [{ word := "旧", reading := "きゅう", meaning := "old", meanings := none }]) :=
  c8_missing_column_no_output _ _ _ (by decide)

/-- C2, counterexample: an entry whose meanings key holds the empty dict,
with a non-empty meaning, is skipped unchanged by the translator (the skip
test only checks that the key exists and is a dict), contradicting the
claim that such an entry is translated. -/
theorem c2_empty_meanings_dict_skipped :
    translateEntry trOk
        { word := "猫", reading := "ねこ", meaning := "cat", meanings := some [] } =
      { word := "猫", reading := "ねこ", meaning := "cat", meanings := some [] } ∧
    ({ word := "猫", reading := "ねこ", meaning := "cat",
       meanings := some [] } : Entry).meaning ≠ "" ∧
    ({ word := "猫", reading := "ねこ", meaning := "cat",
       meanings := some [] } : Entry).meanings = some [] :=
  ⟨rfl, by decide, rfl⟩

/-- C2, amended: the translator leaves an entry unchanged exactly when the
entry already carries a meanings key holding a dict — populated or empty —
or when its meaning field is empty; an entry whose meanings is an empty
dict is skipped, not translated. -/
theorem c2_skip_iff_meanings_present_or_no_meaning
    (tr : String → String → Option String) (e : Entry) :
    translateEntry tr e = e ↔ (e.meanings.isSome = true ∨ e.meaning = "") := by
  rcases e with ⟨w, r, m, ms⟩
  cases ms with
  | some d => simp [translateEntry]
  | none =>
    by_cases hm : m = ""
    · subst hm
      simp [translateEntry]
    · simp [translateEntry, hm]

/-- C3, counterexample: a failed download leaves the level's output file
with its previous contents; it is not rewritten to an empty dataset as the
claim states. -/
theorem c3_failed_download_keeps_previous_file :
    download_and_convert (Except.error "connection error")
        (some [{ word := "猫", reading := "ねこ", meaning := "cat", meanings := none }]) =
      (0, some [{ word := "猫", reading := "ねこ", meaning := "cat", meanings := none }]) ∧
    download_and_convert (Except.error "connection error")
        (some [{ word := "猫", reading := "ねこ", meaning := "cat", meanings := none }]) ≠
      (0, some []) :=
  ⟨rfl, by decide⟩

/-- Helper: the fetcher's fold visits every level and the file written for a
level depends only on that level's own download outcome. -/
theorem fetchAll_files (levels : List (Except String (List FetchRow) × Option (List Entry)))
    (st : Nat × List (Option (List Entry))) :
    (levels.foldl
      (fun st lv =>
        ((st.1 + (download_and_convert lv.1 lv.2).1),
         st.2 ++ [(download_and_convert lv.1 lv.2).2])) st).2 =
      st.2 ++ levels.map (fun lv => (download_and_convert lv.1 lv.2).2) := by
  induction levels generalizing st with
  | nil => simp
  | cons lv rest ih => simp [List.foldl_cons, ih]

/-- C3, amended: a network failure for one level is caught, yields zero
entries, and leaves that level's output file untouched (it is not
rewritten); a successful download overwrites the file with the converted
entries; and every level is processed regardless of the other levels'
outcomes (the per-level result depends only on that level's own download). -/
theorem c3_per_level_isolation
    (levels : List (Except String (List FetchRow) × Option (List Entry))) :
    (fetchAll levels).2 = levels.map (fun lv => (download_and_convert lv.1 lv.2).2) ∧
    (∀ msg prev, download_and_convert (Except.error msg) prev = (0, prev)) ∧
    (∀ rows prev, download_and_convert (Except.ok rows) prev =
      ((convertFetched rows).length, some (convertFetched rows))) := by
  refine ⟨?_, fun msg prev => rfl, fun rows prev => rfl⟩
  unfold fetchAll
  rw [fetchAll_files]
  rfl

/-- Helper: Python dict assignment with a key not yet present appends the
pair. -/
theorem dictInsert_append {α : Type} (d : List (String × α)) (k : String) (v : α)
    (h : d.any (fun p => p.1 == k) = false) : dictInsert d k v = d ++ [(k, v)] := by
  simp [dictInsert, h]

/-- Helper: the base language codes of the nine target languages. -/
theorem baseCode_reduce :
    baseCode "zh-cn" = "zh" ∧ baseCode "ne" = "ne" ∧ baseCode "vi" = "vi" ∧
    baseCode "my" = "my" ∧ baseCode "ko" = "ko" ∧ baseCode "ar" = "ar" ∧
    baseCode "es" = "es" ∧ baseCode "de" = "de" ∧ baseCode "fr" = "fr" := by
  decide

/-- Helper: the translator skips an entry that has a meanings key holding a
dict. -/
theorem translateEntry_eq_of_some (tr : String → String → Option String)
    (e : Entry) (d : List (String × String)) (hd : e.meanings = some d) :
    translateEntry tr e = e := by
  rcases e with ⟨w, r, m, ms⟩
  cases ms with
  | none => simp at hd
  | some d2 => rfl

/-- Helper: the translator skips an entry with no meanings key and an empty
meaning. -/
theorem translateEntry_eq_of_empty (tr : String → String → Option String)
    (w r : String) :
    translateEntry tr ⟨w, r, "", none⟩ = ⟨w, r, "", none⟩ := rfl

/-- Helper: on an entry with no meanings key and a non-empty meaning the
translator attaches the meanings dict: the en seed followed by one pair per
target language in order, keyed by base code, holding the translation or
the English fallback. -/
theorem translateEntry_eq_of_none (tr : String → String → Option String)
    (w r m : String) (hm : m ≠ "") :
    translateEntry tr ⟨w, r, m, none⟩ =
      { word := w, reading := r, meaning := m,
        meanings := some (("en", m) ::
          LANGUAGES.map (fun c => (baseCode c, (tr m c).getD m))) } := by
  obtain ⟨b0, b1, b2, b3, b4, b5, b6, b7, b8⟩ := baseCode_reduce
  have hbeq : (m == "") = false := by simp [hm]
  have hfold : LANGUAGES.foldl
      (fun acc code => dictInsert acc (baseCode code) ((tr m code).getD m)) [("en", m)] =
      ("en", m) :: LANGUAGES.map (fun c => (baseCode c, (tr m c).getD m)) := by
    simp only [LANGUAGES, List.foldl_cons, List.foldl_nil, List.map_cons, List.map_nil,
      b0, b1, b2, b3, b4, b5, b6, b7, b8]
    simp [dictInsert_append]
  have hstep : translateEntry tr ⟨w, r, m, none⟩ =
      { word := w, reading := r, meaning := m,
        meanings := some (LANGUAGES.foldl
          (fun acc code => dictInsert acc (baseCode code) ((tr m code).getD m))
          [("en", m)]) } := by
    simp only [translateEntry, hbeq, Bool.false_eq_true, if_false]
  rw [hstep, hfold]

/-- C4: for an entry the translator actually processes, the meanings dict it
attaches records, for each of the nine target languages in order, the
translated text under the base language code on success and the original
English meaning under the same base code on failure; every language appears
(a failing language aborts neither the entry nor the later languages), and
the whole run still processes every entry of the dataset. -/
theorem c4_per_language_fallback (tr : String → String → Option String)
    (e : Entry) (h1 : e.meanings = none) (h2 : e.meaning ≠ "") :
    (translateEntry tr e).meanings =
      some (("en", e.meaning) ::
        LANGUAGES.map (fun c => (baseCode c, (tr e.meaning c).getD e.meaning))) ∧
    (∀ c ∈ LANGUAGES,
      (((translateEntry tr e).meanings.getD []).lookup (baseCode c)) =
        some ((tr e.meaning c).getD e.meaning)) ∧
    (∀ ds, (translate_vocabulary_file tr ds).length = ds.length) := by
  obtain ⟨b0, b1, b2, b3, b4, b5, b6, b7, b8⟩ := baseCode_reduce
  rcases e with ⟨w, r, m, ms⟩
  cases ms with
  | some d => exact absurd h1 (by simp)
  | none =>
    have hm : m ≠ "" := h2
    rw [translateEntry_eq_of_none tr w r m hm]
    refine ⟨rfl, ?_, fun ds => by simp [translate_vocabulary_file]⟩
    intro c hc
    simp only [Option.getD_some, LANGUAGES, List.map_cons, List.map_nil,
      b0, b1, b2, b3, b4, b5, b6, b7, b8]
    simp only [LANGUAGES, List.mem_cons, List.not_mem_nil, or_false] at hc
    rcases hc with rfl | rfl | rfl | rfl | rfl | rfl | rfl | rfl | rfl
    all_goals simp [List.lookup_cons, b0, b1, b2, b3, b4, b5, b6, b7, b8]

/-- Witness for c4_per_language_fallback: a translator failing exactly on
Korean; the Korean slot gets the English fallback and every other language
its translation. -/
theorem c4_per_language_fallback_witness :
    (translateEntry trKoFails
        { word := "猫", reading := "ねこ", meaning := "cat", meanings := none }).meanings =
      some [("en", "cat"), ("zh", "cat-zh-cn"), ("ne", "cat-ne"), ("vi", "cat-vi"),
            ("my", "cat-my"), ("ko", "cat"), ("ar", "cat-ar"), ("es", "cat-es"),
            ("de", "cat-de"), ("fr", "cat-fr")] := by
  have h := (c4_per_language_fallback trKoFails
    { word := "猫", reading := "ねこ", meaning := "cat", meanings := none }
    rfl (by decide)).1
  rw [h]
  decide

/-- C6: running the translator over a dataset in which every entry already
carries a populated (non-empty) meanings dict changes nothing: the rewritten
output equals the input dataset. -/
theorem c6_rerun_identity (tr : String → String → Option String)
    (ds : List Entry)
    (h : ∀ e ∈ ds, e.meanings.isSome = true ∧ e.meanings ≠ some []) :
    translate_vocabulary_file tr ds = ds := by
  unfold translate_vocabulary_file
  induction ds with
  | nil => rfl
  | cons e rest ih =>
    obtain ⟨hs, -⟩ := h e (List.mem_cons_self e rest)
    obtain ⟨d, hd⟩ := Option.isSome_iff_exists.mp hs
    rw [List.map_cons, translateEntry_eq_of_some tr e d hd,
      ih (fun x hx => h x (List.mem_cons_of_mem _ hx))]

/-- Witness for c6_rerun_identity on a one-entry dataset that already has a
populated meanings dict. -/
theorem c6_rerun_identity_witness :
    translate_vocabulary_file trOk
        [{ word := "猫", reading := "ねこ", meaning := "cat",
           meanings := some [("en", "cat"), ("ko", "고양이")] }] =
      [{ word := "猫", reading := "ねこ", meaning := "cat",
         meanings := some [("en", "cat"), ("ko", "고양이")] }] :=
  c6_rerun_identity trOk _ (by decide)

/-- Helper: a successful association-list lookup comes from a pair of the
list. -/
theorem lookup_mem {α : Type} (l : List (String × α)) (k : String) (v : α)
    (h : l.lookup k = some v) : (k, v) ∈ l := by
  rw [List.lookup_eq_some_iff] at h
  obtain ⟨l1, l2, rfl, -⟩ := h
  simp

/-- Helper: a pair of a dict after assignment is the assigned pair or a pair
of the original dict. -/
theorem dictInsert_mem {α : Type} (d : List (String × α)) (k : String) (v : α)
    (p : String × α) (h : p ∈ dictInsert d k v) : p = (k, v) ∨ p ∈ d := by
  unfold dictInsert at h
  by_cases hc : (d.any fun q => q.1 == k) = true
  · rw [if_pos hc] at h
    obtain ⟨q, hq, hqe⟩ := List.mem_map.mp h
    by_cases hqk : (q.1 == k) = true
    · rw [if_pos hqk] at hqe
      exact Or.inl hqe.symm
    · rw [if_neg hqk] at hqe
      exact Or.inr (hqe ▸ hq)
  · rw [if_neg hc] at h
    rcases List.mem_append.mp h with h1 | h2
    · exact Or.inr h1
    · simp only [List.mem_singleton] at h2
      exact Or.inl h2

/-- Helper: every value of the sample lookup built by the patcher is one of
the sample's entries (foldl step). -/
theorem multilingual_map_mem_aux (l : List Entry) (S : List Entry)
    (acc : List (String × Entry))
    (hacc : ∀ p ∈ acc, p.2 ∈ S) (hl : ∀ e ∈ l, e ∈ S) :
    ∀ p ∈ (l.foldl (fun m e => dictInsert m e.word e) acc), p.2 ∈ S := by
  induction l generalizing acc with
  | nil => exact hacc
  | cons e es ih =>
    refine ih _ ?_ (fun x hx => hl x (List.mem_cons_of_mem _ hx))
    intro p hp
    rcases dictInsert_mem _ _ _ _ hp with h1 | h2
    · rw [h1]
      exact hl e (List.mem_cons_self _ _)
    · exact hacc p h2

/-- Helper: every value the sample lookup can return is a sample entry. -/
theorem multilingual_map_values (sample : List Entry) (k : String) (s : Entry)
    (h : (multilingual_map sample).lookup k = some s) : s ∈ sample :=
  multilingual_map_mem_aux sample sample [] (by simp) (fun _ he => he)
    (k, s) (lookup_mem _ _ _ h)

/-- Helper: the translator preserves the entry invariant. -/
theorem translateEntry_inv (tr : String → String → Option String) (e : Entry)
    (h : entryInvB e = true) : entryInvB (translateEntry tr e) = true := by
  rcases e with ⟨w, r, m, ms⟩
  cases ms with
  | some d => rw [translateEntry_eq_of_some tr _ d rfl]; exact h
  | none =>
    by_cases hm : m = ""
    · subst hm
      rw [translateEntry_eq_of_empty]
      exact h
    · rw [translateEntry_eq_of_none tr w r m hm]
      simp [entryInvB]

/-- Helper: the patcher's loop preserves the entry invariant on its output
when it completes, provided every value in the lookup satisfies it. -/
theorem patchLoop_inv (m : List (String × Entry)) (target : List Entry)
    (out0 : List Entry) (n0 : Nat) (out : List Entry) (n : Nat)
    (hvals : ∀ k s, m.lookup k = some s → entryInvB s = true)
    (hout0 : ∀ e ∈ out0, entryInvB e = true)
    (htarget : ∀ e ∈ target, entryInvB e = true)
    (hok : patchLoop m target out0 n0 = Except.ok (out, n)) :
    ∀ e ∈ out, entryInvB e = true := by
  induction target generalizing out0 n0 with
  | nil =>
    unfold patchLoop at hok
    injection hok with hok2
    injection hok2 with h1 h2
    subst h1
    exact hout0
  | cons t ts ih =>
    unfold patchLoop at hok
    cases hmt : m.lookup t.word with
    | none =>
      simp only [hmt] at hok
      refine ih _ _ ?_ (fun x hx => htarget x (List.mem_cons_of_mem _ hx)) hok
      intro x hx
      rcases List.mem_append.mp hx with h1 | h2
      · exact hout0 x h1
      · simp only [List.mem_singleton] at h2
        exact h2 ▸ htarget t (List.mem_cons_self _ _)
    | some s =>
      simp only [hmt] at hok
      cases hms : s.meanings with
      | none =>
        simp only [hms] at hok
        simp at hok
      | some msv =>
        simp only [hms] at hok
        refine ih _ _ ?_ (fun x hx => htarget x (List.mem_cons_of_mem _ hx)) hok
        intro x hx
        rcases List.mem_append.mp hx with h1 | h2
        · exact hout0 x h1
        · simp only [List.mem_singleton] at h2
          subst h2
          have hsi : entryInvB s = true := hvals _ _ hmt
          simp only [entryInvB, hms] at hsi
          simp [entryInvB, hsi]

/-- C7: the pipeline's operations preserve the entry invariant (no meanings
key, or a meanings dict containing an en key): the translator's output, the
patcher's output (when its run completes and both inputs satisfy the
invariant), the converter's output, and the fetcher's converted rows all
satisfy it entrywise. -/
theorem c7_entry_invariant (tr : String → String → Option String)
    (ds sample target out : List Entry) (n : Nat)
    (header : List String) (rows : List CsvRow) (es : List Entry)
    (frows : List FetchRow)
    (hds : ∀ e ∈ ds, entryInvB e = true)
    (hsample : ∀ e ∈ sample, entryInvB e = true)
    (htarget : ∀ e ∈ target, entryInvB e = true)
    (hok : update_first_words sample target = Except.ok (out, n))
    (hcsv : csv_to_json header rows = some es) :
    (∀ e ∈ translate_vocabulary_file tr ds, entryInvB e = true) ∧
    (∀ e ∈ out, entryInvB e = true) ∧
    (∀ e ∈ es, entryInvB e = true) ∧
    (∀ e ∈ convertFetched frows, entryInvB e = true) := by
  refine ⟨?_, ?_, ?_, ?_⟩
  · intro e he
    obtain ⟨a, ha, rfl⟩ := List.mem_map.mp he
    exact translateEntry_inv tr a (hds a ha)
  · exact patchLoop_inv (multilingual_map sample) target [] 0 out n
      (fun k s hk => hsample s (multilingual_map_values sample k s hk))
      (by simp) htarget hok
  · intro e he
    have hes : es = (rows.filter keepRow).map rowToEntry := by
      unfold csv_to_json at hcsv
      by_cases hcond : (requiredColumns.all fun c => header.contains c) = true
      · rw [if_pos hcond] at hcsv
        exact (Option.some.inj hcsv).symm
      · rw [if_neg hcond] at hcsv
        cases hcsv
    rw [hes] at he
    obtain ⟨r0, h0, rfl⟩ := List.mem_map.mp he
    rfl
  · intro e he
    obtain ⟨r0, h0, hr⟩ := List.mem_filterMap.mp he
    simp only [fetchRowToEntry] at hr
    split_ifs at hr
    all_goals cases hr
    all_goals simp [entryInvB]

/-- Witness for c7_entry_invariant on small concrete datasets for each of
the four operations. -/
theorem c7_entry_invariant_witness :
    (∀ e ∈ translate_vocabulary_file trOk
        [{ word := "水", reading := "みず", meaning := "water", meanings := none }],
      entryInvB e = true) ∧
    (∀ e ∈ [({ word := "本", reading := "ほん", meaning := "book",
               meanings := some [("en", "book")] } : Entry)], entryInvB e = true) ∧
    (∀ e ∈ [({ word := "水", reading := "みず", meaning := "water",
               meanings := none } : Entry)], entryInvB e = true) ∧
    (∀ e ∈ convertFetched [{ expression := "水", reading := "みず", meaning := "water" }],
      entryInvB e = true) :=
  c7_entry_invariant trOk
    [{ word := "水", reading := "みず", meaning := "water", meanings := none }]
    [{ word := "本", reading := "ほん", meaning := "book", meanings := some [("en", "book")] }]
    [{ word := "本", reading := "ほん", meaning := "book", meanings := none }]
    [{ word := "本", reading := "ほん", meaning := "book", meanings := some [("en", "book")] }]
    1 ["word", "reading", "meaning"]
    [{ word := "水", reading := "みず", meaning := "water" }]
    [{ word := "水", reading := "みず", meaning := "water", meanings := none }]
    [{ expression := "水", reading := "みず", meaning := "water" }]
    (by decide) (by decide) (by decide) rfl (by decide)

/-- Helper: the patcher's loop, when every value the lookup can return has a
meanings key, completes and produces the patched tail appended to the
accumulator, counting exactly the matched entries. -/
theorem patchLoop_run (m : List (String × Entry)) (target : List Entry)
    (out0 : List Entry) (n0 : Nat)
    (hvals : ∀ k s, m.lookup k = some s → s.meanings.isSome = true) :
    patchLoop m target out0 n0 =
      Except.ok
        (out0 ++ target.map (fun e =>
          match m.lookup e.word with
          | none => e
          | some s => { e with meanings := s.meanings }),
         n0 + (target.filter (fun e => (m.lookup e.word).isSome)).length) := by
  induction target generalizing out0 n0 with
  | nil => simp [patchLoop]
  | cons t ts ih =>
    unfold patchLoop
    cases hmt : m.lookup t.word with
    | none =>
      simp only [hmt]
      rw [ih]
      simp [hmt]
    | some s =>
      obtain ⟨msv, hms⟩ := Option.isSome_iff_exists.mp (hvals _ _ hmt)
      simp only [hmt, hms]
      rw [ih]
      simp [hmt, hms, List.filter_cons, Nat.add_comm, Nat.add_assoc, Nat.add_left_comm]

/-- C9: the patcher overwrites the meanings of exactly the target entries
whose word is a key of the sample lookup (with the sample's meanings value,
all other fields untouched), leaves every other entry unchanged, reports as
updated count the number of matched entries, and completes with a rewrite
even when nothing matched — provided every sample entry has a meanings key
(otherwise the script dies on the missing key). -/
theorem c9_patch_exactly_matched (sample target : List Entry)
    (h : ∀ s ∈ sample, s.meanings.isSome = true) :
    update_first_words sample target =
      Except.ok
        (target.map (fun e =>
          match (multilingual_map sample).lookup e.word with
          | none => e
          | some s => { e with meanings := s.meanings }),
         (target.filter
           (fun e => ((multilingual_map sample).lookup e.word).isSome)).length) := by
  unfold update_first_words
  rw [patchLoop_run _ _ _ _
    (fun k s hk => h s (multilingual_map_values sample k s hk))]
  simp

/-- Witness for c9_patch_exactly_matched: the 本 entry is patched with the
sample meanings, the 犬 entry is untouched, and the count is 1. -/
theorem c9_patch_exactly_matched_witness :
    update_first_words
        [{ word := "本", reading := "ほん", meaning := "book",
           meanings := some [("en", "book"), ("ko", "책")] }]
        [{ word := "本", reading := "ほん", meaning := "book", meanings := none },
         { word := "犬", reading := "いぬ", meaning := "dog", meanings := none }] =
      Except.ok
        ([{ word := "本", reading := "ほん", meaning := "book",
            meanings := some [("en", "book"), ("ko", "책")] },
          { word := "犬", reading := "いぬ", meaning := "dog", meanings := none }],
         1) := by
  rw [c9_patch_exactly_matched _ _ (by decide)]
  rfl

/-- Helper: the merge loop's accumulated entries pass through: running with
accumulator acc equals running with an empty accumulator and prepending
acc. -/
theorem mergeFile_acc (es : List JEntry) :
    ∀ (seen : List String) (acc : List JEntry),
      mergeFile es acc seen =
        ((acc ++ (mergeFile es [] seen).1), (mergeFile es [] seen).2) := by
  induction es with
  | nil => intro seen acc; simp [mergeFile]
  | cons e es ih =>
    intro seen acc
    cases hw : e.word with
    | none => simp [mergeFile, hw]
    | some w =>
      simp only [mergeFile, hw]
      by_cases hc : (seen.contains w) = true
      · rw [if_pos hc, if_pos hc]
        exact ih seen acc
      · rw [if_neg hc, if_neg hc]
        simp only [List.nil_append]
        rw [ih (seen ++ [w]) (acc ++ [e]), ih (seen ++ [w]) [e]]
        simp

/-- Helper: when a block of entries all carry a word key, the merge loop
processes a concatenation blockwise. -/
theorem mergeFile_append (l1 l2 : List JEntry)
    (h : ∀ e ∈ l1, e.word.isSome = true) :
    ∀ (acc : List JEntry) (seen : List String),
      mergeFile (l1 ++ l2) acc seen =
        mergeFile l2 (mergeFile l1 acc seen).1 (mergeFile l1 acc seen).2 := by
  induction l1 with
  | nil => intro acc seen; simp [mergeFile]
  | cons e es ih =>
    intro acc seen
    obtain ⟨w, hw⟩ := Option.isSome_iff_exists.mp (h e (List.mem_cons_self _ _))
    have hes : ∀ x ∈ es, x.word.isSome = true :=
      fun x hx => h x (List.mem_cons_of_mem _ hx)
    simp only [List.cons_append, mergeFile, hw]
    by_cases hc : (seen.contains w) = true
    · rw [if_pos hc, if_pos hc]
      exact ih hes acc seen
    · rw [if_neg hc, if_neg hc]
      exact ih hes (acc ++ [e]) (seen ++ [w])

/-- Helper: merge_json_files over successfully parsed files is the merge
loop over the concatenation of their entries. -/
theorem merge_foldl_ok (fls : List (List JEntry))
    (h : ∀ l ∈ fls, ∀ e ∈ l, e.word.isSome = true) :
    ∀ (st : List JEntry × List String),
      ((fls.map (fun l => (Except.ok l : Except String (List JEntry)))).foldl
        (fun st file =>
          match file with
          | Except.error _ => st
          | Except.ok entries => mergeFile entries st.1 st.2) st) =
        mergeFile fls.flatten st.1 st.2 := by
  induction fls with
  | nil => intro st; simp [mergeFile]
  | cons l ls ih =>
    intro st
    simp only [List.map_cons, List.foldl_cons, List.flatten_cons]
    rw [ih (fun x hx => h x (List.mem_cons_of_mem _ hx))]
    rw [mergeFile_append l ls.flatten (h l (List.mem_cons_self _ _))]

/-- Helper: the merge loop computes first-seen-wins deduplication of the
entries whose word has not yet been seen. -/
theorem mergeFile_dedup (L : List JEntry) (h : ∀ e ∈ L, e.word.isSome = true) :
    ∀ (seen : List String) (acc : List JEntry),
      (mergeFile L acc seen).1 = acc ++ dedupFirst (L.filter (notSeen seen)) := by
  induction L with
  | nil => intro seen acc; simp [mergeFile, dedupFirst]
  | cons e es ih =>
    intro seen acc
    obtain ⟨w, hw⟩ := Option.isSome_iff_exists.mp (h e (List.mem_cons_self _ _))
    have hes : ∀ x ∈ es, x.word.isSome = true :=
      fun x hx => h x (List.mem_cons_of_mem _ hx)
    by_cases hc : (seen.contains w) = true
    · have hcm : w ∈ seen := List.elem_iff.mp hc
      have hns : notSeen seen e = false := by simp [notSeen, hw, hcm]
      simp only [mergeFile, hw]
      rw [if_pos hc]
      rw [ih hes seen acc]
      simp [List.filter_cons, hns]
    · have hcm : ¬ w ∈ seen := fun hm => hc (List.elem_iff.mpr hm)
      have hns : notSeen seen e = true := by simp [notSeen, hw, hcm]
      simp only [mergeFile, hw]
      rw [if_neg hc]
      rw [ih hes (seen ++ [w]) (acc ++ [e])]
      have hfe : es.filter (notSeen (seen ++ [w])) =
          (es.filter (notSeen seen)).filter (fun e2 => !(e2.word == e.word)) := by
        rw [List.filter_filter]
        apply List.filter_congr
        intro x hx
        obtain ⟨w2, hw2⟩ := Option.isSome_iff_exists.mp (hes x hx)
        simp only [notSeen, hw2, hw]
        by_cases hne : w2 = w
        · subst hne
          simp
        · simp [hne]
      simp only [List.filter_cons, hns, if_true]
      rw [dedupFirst]
      rw [← hfe]
      simp

/-- Helper: deduplication keeps only entries of the original list. -/
theorem dedupFirst_subset (L : List JEntry) : ∀ x ∈ dedupFirst L, x ∈ L := by
  induction L using dedupFirst.induct with
  | case1 => simp [dedupFirst]
  | case2 e es ih =>
    intro x hx
    rw [dedupFirst] at hx
    rcases List.mem_cons.mp hx with rfl | hx2
    · exact List.mem_cons_self _ _
    · exact List.mem_cons_of_mem _ (List.mem_of_mem_filter (ih x hx2))

/-- Helper: after first-seen-wins deduplication no word value occurs
twice. -/
theorem dedupFirst_words_nodup (L : List JEntry) :
    ((dedupFirst L).filterMap (fun e => e.word)).Nodup := by
  induction L using dedupFirst.induct with
  | case1 => simp [dedupFirst]
  | case2 e es ih =>
    rw [dedupFirst]
    cases hw : e.word with
    | none =>
      rw [hw] at ih
      rw [List.filterMap_cons_none hw]
      exact ih
    | some w =>
      rw [hw] at ih
      rw [List.filterMap_cons_some hw]
      refine List.nodup_cons.mpr ⟨?_, ih⟩
      intro hmem
      obtain ⟨x, hx, hxw⟩ := List.mem_filterMap.mp hmem
      have hxf := dedupFirst_subset _ x hx
      have hne := List.of_mem_filter hxf
      rw [hxw] at hne
      simp at hne

/-- C5: merging a list of successfully parsed dataset files (each entry
carrying a word key) yields exactly the first-seen-wins deduplication by
word of the concatenation of their entries in input order, and no word
value occurs twice in the output. -/
theorem c5_merge_first_seen_wins (fls : List (List JEntry))
    (h : ∀ l ∈ fls, ∀ e ∈ l, e.word.isSome = true) :
    merge_json_files (fls.map (fun l => (Except.ok l : Except String (List JEntry)))) =
      dedupFirst fls.flatten ∧
    ((merge_json_files (fls.map (fun l => (Except.ok l : Except String (List JEntry))))).filterMap
      (fun e => e.word)).Nodup := by
  have hj : ∀ e ∈ fls.flatten, e.word.isSome = true := by
    intro e he
    obtain ⟨l, hl, hel⟩ := List.mem_flatten.mp he
    exact h l hl e hel
  have hmain : merge_json_files
      (fls.map (fun l => (Except.ok l : Except String (List JEntry)))) =
      dedupFirst fls.flatten := by
    unfold merge_json_files
    rw [merge_foldl_ok fls h ([], [])]
    rw [mergeFile_dedup fls.flatten hj [] []]
    have hfl : fls.flatten.filter (notSeen []) = fls.flatten := by
      rw [List.filter_eq_self]
      intro x hx
      obtain ⟨w2, hw2⟩ := Option.isSome_iff_exists.mp (hj x hx)
      simp [notSeen, hw2]
    rw [hfl]
    simp
  refine ⟨hmain, ?_⟩
  rw [hmain]
  exact dedupFirst_words_nodup _

/-- Witness for c5_merge_first_seen_wins on the spec's example: two files
both containing 猫 (with different meanings) and the second also 犬. -/
theorem c5_merge_first_seen_wins_witness :
    merge_json_files
        ([[{ word := some "猫", reading := "ねこ", meaning := "cat", meanings := none }],
          [{ word := some "猫", reading := "ねこ", meaning := "feline", meanings := none },
           { word := some "犬", reading := "いぬ", meaning := "dog", meanings := none }]].map
          (fun l => (Except.ok l : Except String (List JEntry)))) =
      dedupFirst
        [[{ word := some "猫", reading := "ねこ", meaning := "cat", meanings := none }],
         [{ word := some "猫", reading := "ねこ", meaning := "feline", meanings := none },
          { word := some "犬", reading := "いぬ", meaning := "dog", meanings := none }]].flatten ∧
    ((merge_json_files
        ([[{ word := some "猫", reading := "ねこ", meaning := "cat", meanings := none }],
          [{ word := some "猫", reading := "ねこ", meaning := "feline", meanings := none },
           { word := some "犬", reading := "いぬ", meaning := "dog", meanings := none }]].map
          (fun l => (Except.ok l : Except String (List JEntry))))).filterMap
      (fun e => e.word)).Nodup :=
  c5_merge_first_seen_wins _ (by decide)

/-- Helper: the merge loop stops at the first entry without a word key,
keeping everything accumulated so far and discarding the rest of the
block. -/
theorem mergeFile_stops (pre rest : List JEntry) (bad : JEntry)
    (hbad : bad.word = none) :
    ∀ (acc : List JEntry) (seen : List String),
      mergeFile (pre ++ bad :: rest) acc seen = mergeFile pre acc seen := by
  induction pre with
  | nil =>
    intro acc seen
    simp [mergeFile, hbad]
  | cons e es ih =>
    intro acc seen
    cases hw : e.word with
    | none => simp [mergeFile, hw]
    | some w =>
      simp only [List.cons_append, mergeFile, hw]
      by_cases hc : (seen.contains w) = true
      · rw [if_pos hc, if_pos hc]
        exact ih acc seen
      · rw [if_neg hc, if_neg hc]
        exact ih (acc ++ [e]) (seen ++ [w])

/-- C10: when iterating a successfully parsed input file raises at an entry
without a word key, the merge behaves exactly as if the file had been
truncated just before the failing entry: the entries appended before it
remain, the rest of the file is discarded, and the run continues through
the remaining files and still produces its output. -/
theorem c10_partial_file_kept (fs1 fs2 : List (Except String (List JEntry)))
    (pre rest : List JEntry) (bad : JEntry) (hbad : bad.word = none) :
    merge_json_files (fs1 ++ (Except.ok (pre ++ bad :: rest)) :: fs2) =
      merge_json_files (fs1 ++ (Except.ok pre) :: fs2) := by
  unfold merge_json_files
  rw [List.foldl_append, List.foldl_append]
  simp only [List.foldl_cons]
  rw [mergeFile_stops pre rest bad hbad]

/-- Witness for c10_partial_file_kept: the second file fails at its second
entry; its first entry is kept, its third is discarded, and the error file
after it is still skipped as usual. -/
theorem c10_partial_file_kept_witness :
    merge_json_files
        [Except.ok [{ word := some "猫", reading := "ねこ", meaning := "cat", meanings := none }],
         Except.ok [{ word := some "犬", reading := "いぬ", meaning := "dog", meanings := none },
                    { word := none, reading := "", meaning := "broken", meanings := none },
                    { word := some "鳥", reading := "とり", meaning := "bird", meanings := none }],
         Except.error "unreadable file"] =
      merge_json_files
        [Except.ok [{ word := some "猫", reading := "ねこ", meaning := "cat", meanings := none }],
         Except.ok [{ word := some "犬", reading := "いぬ", meaning := "dog", meanings := none }],
         Except.error "unreadable file"] :=
  c10_partial_file_kept
    [Except.ok [{ word := some "猫", reading := "ねこ", meaning := "cat", meanings := none }]]
    [Except.error "unreadable file"]
    [{ word := some "犬", reading := "いぬ", meaning := "dog", meanings := none }]
    [{ word := some "鳥", reading := "とり", meaning := "bird", meanings := none }]
    { word := none, reading := "", meaning := "broken", meanings := none }
    rfl
